import Mathlib

/-!
Shallow embedding of the `cmdi` command-dispatch engine (`src/lib.rs`).

The crate maintains a tree of named commands (`Command`), each holding a
clap argument specification (`cmd`), a handler, and a map from child name
to child node (`subcmds : HashMap<String, Self>`).  Dispatch resolves
parsed matches to exactly one handler call, threading a caller-owned
mutable context.  `repl` first executes the root against the process
arguments and, when no subcommand was resolved, enters an interactive
read-tokenize-dispatch loop.

External collaborators (clap parsing, clap_complete script generation,
shell_words tokenization, rustyline line reading) live outside `src/`;
their data and contracts are modelled from the spec where noted, and the
parse and tokenize functions are abstract parameters of the theorems.

Mutable-reference state passing is modelled by explicit state passing:
a handler takes the context and returns a result `HRes` holding the new
context, the stdout output produced, and an outcome that is either
success, a returned error, or a panic (Rust `unwrap` failure), since a
panic unwinds instead of being returned as a value.
-/

set_option autoImplicit false

namespace Cmdi

/-- Modelled from the spec: an option/positional declaration handed to the
argument-spec collaborator.  `valueParser` lists the allowed values of the
argument; an empty list means any value is accepted
(clap `Arg::new(id).required(b).value_parser([..])`). -/
structure ArgSpec where
  id : String
  required : Bool
  valueParser : List String
deriving DecidableEq, Repr

/-- Modelled from the spec: clap color preference (opaque metadata forwarded
to the argument-spec collaborator). -/
inductive ColorChoice where
  | auto
  | always
  | never
deriving DecidableEq, Repr

/-- Modelled from the spec: the per-node data consumed by the argument-spec
collaborator — name, alias set, descriptive metadata, the
subcommand-required flag, argument declarations and child specifications
(the crate stores this as a `clap::Command`). -/
inductive ClapCommand where
  | mk (name : String) (aliases : List String)
       (about : Option String) (version : Option String) (author : Option String)
       (color : ColorChoice)
       (subcommandRequired : Bool) (argRequiredElseHelp : Bool)
       (args : List ArgSpec) (subcommands : List ClapCommand)
deriving Repr

namespace ClapCommand

def getName : ClapCommand → String
  | .mk n _ _ _ _ _ _ _ _ _ => n

def getAliases : ClapCommand → List String
  | .mk _ a _ _ _ _ _ _ _ _ => a

def getArgs : ClapCommand → List ArgSpec
  | .mk _ _ _ _ _ _ _ _ a _ => a

def getSubcommands : ClapCommand → List ClapCommand
  | .mk _ _ _ _ _ _ _ _ _ s => s

/-- Modelled from the spec: `clap::Command::new` — fresh spec with the given
name and empty metadata. -/
def new (n : String) : ClapCommand :=
  .mk n [] none none none .auto false false [] []

def setName (n : String) : ClapCommand → ClapCommand
  | .mk _ al ab v au c sr ar ags subs => .mk n al ab v au c sr ar ags subs

def addAlias (a : String) : ClapCommand → ClapCommand
  | .mk n al ab v au c sr ar ags subs => .mk n (al ++ [a]) ab v au c sr ar ags subs

def addAliases (as : List String) : ClapCommand → ClapCommand
  | .mk n al ab v au c sr ar ags subs => .mk n (al ++ as) ab v au c sr ar ags subs

def setAbout (ab : Option String) : ClapCommand → ClapCommand
  | .mk n al _ v au c sr ar ags subs => .mk n al ab v au c sr ar ags subs

def setVersion (v : Option String) : ClapCommand → ClapCommand
  | .mk n al ab _ au c sr ar ags subs => .mk n al ab v au c sr ar ags subs

def setAuthor (au : Option String) : ClapCommand → ClapCommand
  | .mk n al ab v _ c sr ar ags subs => .mk n al ab v au c sr ar ags subs

def setColor (c : ColorChoice) : ClapCommand → ClapCommand
  | .mk n al ab v au _ sr ar ags subs => .mk n al ab v au c sr ar ags subs

def setSubcommandRequired (b : Bool) : ClapCommand → ClapCommand
  | .mk n al ab v au c _ ar ags subs => .mk n al ab v au c b ar ags subs

def setArgRequiredElseHelp (b : Bool) : ClapCommand → ClapCommand
  | .mk n al ab v au c sr _ ags subs => .mk n al ab v au c sr b ags subs

def addArg (a : ArgSpec) : ClapCommand → ClapCommand
  | .mk n al ab v au c sr ar ags subs => .mk n al ab v au c sr ar (ags ++ [a]) subs

/-- Modelled from the spec: `clap::Command::subcommand` appends the child
spec to the child-specification list. -/
def addSubcommand : ClapCommand → ClapCommand → ClapCommand
  | .mk n al ab v au c sr ar ags subs, s => .mk n al ab v au c sr ar ags (subs ++ [s])

@[simp] theorem getName_mk (n : String) (al : List String)
    (ab v au : Option String) (c : ColorChoice) (sr ar : Bool)
    (ags : List ArgSpec) (subs : List ClapCommand) :
    (ClapCommand.mk n al ab v au c sr ar ags subs).getName = n := by
  simp [getName]

@[simp] theorem getArgs_mk (n : String) (al : List String)
    (ab v au : Option String) (c : ColorChoice) (sr ar : Bool)
    (ags : List ArgSpec) (subs : List ClapCommand) :
    (ClapCommand.mk n al ab v au c sr ar ags subs).getArgs = ags := by
  simp [getArgs]

@[simp] theorem getSubcommands_mk (n : String) (al : List String)
    (ab v au : Option String) (c : ColorChoice) (sr ar : Bool)
    (ags : List ArgSpec) (subs : List ClapCommand) :
    (ClapCommand.mk n al ab v au c sr ar ags subs).getSubcommands = subs := by
  simp [getSubcommands]

@[simp] theorem new_def (n : String) :
    ClapCommand.new n = .mk n [] none none none .auto false false [] [] := rfl

@[simp] theorem setName_mk (n₀ n : String) (al : List String)
    (ab v au : Option String) (c : ColorChoice) (sr ar : Bool)
    (ags : List ArgSpec) (subs : List ClapCommand) :
    (ClapCommand.mk n₀ al ab v au c sr ar ags subs).setName n =
      .mk n al ab v au c sr ar ags subs := by
  simp [setName]

@[simp] theorem setAbout_mk (ab₀ ab : Option String) (n : String) (al : List String)
    (v au : Option String) (c : ColorChoice) (sr ar : Bool)
    (ags : List ArgSpec) (subs : List ClapCommand) :
    (ClapCommand.mk n al ab₀ v au c sr ar ags subs).setAbout ab =
      .mk n al ab v au c sr ar ags subs := by
  simp [setAbout]

@[simp] theorem addArg_mk (a : ArgSpec) (n : String) (al : List String)
    (ab v au : Option String) (c : ColorChoice) (sr ar : Bool)
    (ags : List ArgSpec) (subs : List ClapCommand) :
    (ClapCommand.mk n al ab v au c sr ar ags subs).addArg a =
      .mk n al ab v au c sr ar (ags ++ [a]) subs := by
  simp [addArg]

@[simp] theorem addSubcommand_mk (s : ClapCommand) (n : String) (al : List String)
    (ab v au : Option String) (c : ColorChoice) (sr ar : Bool)
    (ags : List ArgSpec) (subs : List ClapCommand) :
    (ClapCommand.mk n al ab v au c sr ar ags subs).addSubcommand s =
      .mk n al ab v au c sr ar ags (subs ++ [s]) := by
  simp [addSubcommand]

@[simp] theorem getName_addSubcommand (c s : ClapCommand) :
    (c.addSubcommand s).getName = c.getName := by
  cases c
  simp [addSubcommand, getName]

@[simp] theorem getSubcommands_addSubcommand (c s : ClapCommand) :
    (c.addSubcommand s).getSubcommands = c.getSubcommands ++ [s] := by
  cases c
  simp [addSubcommand, getSubcommands]

end ClapCommand

/-- The parsed-arguments value (`clap::ArgMatches`), modelled as the data the
core observes: per-argument string values (`get_one::<String>`) and the
selected child together with the sub-matches scoped to it (`subcommand()`). -/
inductive Matches where
  | mk (args : List (String × String)) (sub : Option (String × Matches))
deriving Repr

/-- Association-list lookup, first match wins
(models `HashMap::get` and `ArgMatches::get_one`). -/
def lookupAssoc {α : Type} : List (String × α) → String → Option α
  | [], _ => none
  | (k, v) :: rest, n => if k = n then some v else lookupAssoc rest n

/-- Association-list insert with replacement of an existing key
(models `HashMap::insert`). -/
def insertAssoc {α : Type} : List (String × α) → String → α → List (String × α)
  | [], k, v => [(k, v)]
  | (k₀, v₀) :: rest, k, v =>
      if k₀ = k then (k, v) :: rest else (k₀, v₀) :: insertAssoc rest k v

namespace Matches

def getArgs : Matches → List (String × String)
  | .mk a _ => a

/-- `ArgMatches::subcommand()`: the selected child name with its sub-matches. -/
def subcommand : Matches → Option (String × Matches)
  | .mk _ s => s

/-- `ArgMatches::get_one::<String>(id)`. -/
def get_one (m : Matches) (id : String) : Option String :=
  lookupAssoc m.getArgs id

@[simp] theorem args_of_mk (a : List (String × String)) (s : Option (String × Matches)) :
    (Matches.mk a s).getArgs = a := rfl

@[simp] theorem subcommand_of_mk (a : List (String × String)) (s : Option (String × Matches)) :
    (Matches.mk a s).subcommand = s := rfl

@[simp] theorem get_one_mk (a : List (String × String)) (s : Option (String × Matches)) (id : String) :
    (Matches.mk a s).get_one id = lookupAssoc a id := rfl

end Matches

/-- The error taxonomy of values returned through `anyhow::Result`. -/
inductive Error where
  | argParse (msg : String)
  | unknownSubcommand (nm : String)
  | handlerFail (msg : String)
deriving DecidableEq, Repr

/-- Debug rendering of an error (`println!` with the debug formatter in the
loop; `bail!` message for the unknown-subcommand case). -/
def errMsg : Error → String
  | .argParse m => m
  | .unknownSubcommand n => "no subcommand handler for `" ++ n ++ "`"
  | .handlerFail m => m

/-- Modelled from the spec: a shell identifier accepted by the completion
generator (`clap_complete::Shell`). -/
inductive Shell where
  | bash
  | zsh
  | powershell
  | fish
  | elvish
deriving DecidableEq, Repr

/-- Modelled from the spec: `clap_complete::Shell` identifier parsing,
defined on exactly the five supported identifiers. -/
def parseShell (s : String) : Option Shell :=
  if s = "bash" then some .bash
  else if s = "zsh" then some .zsh
  else if s = "powershell" then some .powershell
  else if s = "fish" then some .fish
  else if s = "elvish" then some .elvish
  else none

/-- Modelled from the spec: the textual completion script, abstracted to the
data the spec talks about — the shell it targets, the embedded binary name,
and which commands it describes. -/
structure Script where
  shell : Shell
  binName : String
  describedCommands : List String
deriving DecidableEq, Repr

/-- Modelled from the spec: the completion-script collaborator
(`clap_complete::generate`) consumes a shell identifier plus the
argument-spec snapshot and the binary name; the produced script describes
exactly the subcommands present in the snapshot. -/
def generateScript (sh : Shell) (snapshot : ClapCommand) (binName : String) : Script :=
  ⟨sh, binName, snapshot.getSubcommands.map ClapCommand.getName⟩

/-- One item written to standard output: a printed text line or a generated
completion script. -/
inductive OutItem where
  | text (s : String)
  | script (sc : Script)
deriving DecidableEq, Repr

/-- How a handler invocation ends: normal return, a returned error
(`Err` of `anyhow::Result`), or a panic (failed `unwrap`), which unwinds
instead of being returned. -/
inductive Outcome where
  | ok
  | err (e : Error)
  | panic (msg : String)
deriving DecidableEq, Repr

/-- Result of running a handler: the context after the call (mutation through
`&mut Ctx` persists even when the call fails), the stdout output produced,
and the outcome. -/
structure HRes (Ctx : Type) where
  ctx : Ctx
  out : List OutItem
  res : Outcome

/-- The handler slot of a node.  Following the design note of the spec, the
stored `Box<dyn Fn>` is modelled as a closed set of handler kinds: the
default dispatching handler installed by `Command::new`, or a custom
function installed by `Command::handler` (closures capture what they need,
so the node argument of the Rust signature is left to the closure). -/
inductive Handler (Ctx : Type) where
  | defaultDispatch
  | custom (f : Matches → Ctx → HRes Ctx)

/-- A command-tree node (`struct Command`): clap spec, handler, and the map
from child name to child node (`HashMap<String, Self>`, modelled as an
association list with replace-on-insert). -/
inductive Command (Ctx : Type) where
  | mk (cmd : ClapCommand) (handler : Handler Ctx)
       (subcmds : List (String × Command Ctx))

namespace Command

variable {Ctx : Type}

def cmdOf : Command Ctx → ClapCommand
  | .mk c _ _ => c

def handlerOf : Command Ctx → Handler Ctx
  | .mk _ h _ => h

def subcmdsOf : Command Ctx → List (String × Command Ctx)
  | .mk _ _ s => s

@[simp] theorem cmdOf_mk (c : ClapCommand) (h : Handler Ctx) (s : List (String × Command Ctx)) :
    (Command.mk c h s).cmdOf = c := rfl

@[simp] theorem handlerOf_mk (c : ClapCommand) (h : Handler Ctx) (s : List (String × Command Ctx)) :
    (Command.mk c h s).handlerOf = h := rfl

@[simp] theorem subcmdsOf_mk (c : ClapCommand) (h : Handler Ctx) (s : List (String × Command Ctx)) :
    (Command.mk c h s).subcmdsOf = s := rfl

/-- `Command::new`: fresh node with the default dispatching handler and no
children. -/
def new (n : String) : Command Ctx :=
  .mk (ClapCommand.new n) .defaultDispatch []

/-- `Command::name`: (re)set the app name. -/
def name (self : Command Ctx) (n : String) : Command Ctx :=
  .mk (self.cmdOf.setName n) self.handlerOf self.subcmdsOf

/-- `Command::alias`. -/
def «alias» (self : Command Ctx) (a : String) : Command Ctx :=
  .mk (self.cmdOf.addAlias a) self.handlerOf self.subcmdsOf

/-- `Command::aliases`. -/
def aliases (self : Command Ctx) (as : List String) : Command Ctx :=
  .mk (self.cmdOf.addAliases as) self.handlerOf self.subcmdsOf

/-- `Command::about`. -/
def about (self : Command Ctx) (ab : Option String) : Command Ctx :=
  .mk (self.cmdOf.setAbout ab) self.handlerOf self.subcmdsOf

/-- `Command::version`. -/
def version (self : Command Ctx) (v : Option String) : Command Ctx :=
  .mk (self.cmdOf.setVersion v) self.handlerOf self.subcmdsOf

/-- `Command::author`. -/
def author (self : Command Ctx) (au : Option String) : Command Ctx :=
  .mk (self.cmdOf.setAuthor au) self.handlerOf self.subcmdsOf

/-- `Command::color`. -/
def color (self : Command Ctx) (c : ColorChoice) : Command Ctx :=
  .mk (self.cmdOf.setColor c) self.handlerOf self.subcmdsOf

/-- `Command::subcommand_required_else_help`: sets both the
subcommand-required and the arg-required-else-help flags. -/
def subcommand_required_else_help (self : Command Ctx) (b : Bool) : Command Ctx :=
  .mk ((self.cmdOf.setSubcommandRequired b).setArgRequiredElseHelp b)
    self.handlerOf self.subcmdsOf

/-- `Command::arg`. -/
def arg (self : Command Ctx) (a : ArgSpec) : Command Ctx :=
  .mk (self.cmdOf.addArg a) self.handlerOf self.subcmdsOf

/-- `Command::handler`: install a custom handler. -/
def handler (self : Command Ctx) (f : Matches → Ctx → HRes Ctx) : Command Ctx :=
  .mk self.cmdOf (.custom f) self.subcmdsOf

/-- `Command::get_name`. -/
def get_name (self : Command Ctx) : String :=
  self.cmdOf.getName

/-- `Command::subcommand`: attach the child spec to the clap spec and
register the child node in the map under its own name. -/
def subcommand (self : Command Ctx) (subcmd : Command Ctx) : Command Ctx :=
  .mk (self.cmdOf.addSubcommand subcmd.cmdOf) self.handlerOf
    (insertAssoc self.subcmdsOf subcmd.get_name subcmd)

/-- `Command::subcommands`: register children one by one ("just a fancy
loop", a left fold of `subcommand`). -/
def subcommands (self : Command Ctx) (subcmds : List (Command Ctx)) : Command Ctx :=
  subcmds.foldl Command.subcommand self

end Command

/-- A value found by association-list lookup is structurally smaller than the
list, which justifies the recursion of `exec_with` into a looked-up child. -/
theorem lookupAssoc_sizeOf {α : Type} [SizeOf α] :
    ∀ (l : List (String × α)) (n : String) (c : α),
      lookupAssoc l n = some c → sizeOf c < sizeOf l := by
  intro l
  induction l with
  | nil => intro n c h; simp [lookupAssoc] at h
  | cons p rest ih =>
      intro n c h
      obtain ⟨k, v⟩ := p
      simp only [lookupAssoc] at h
      by_cases hk : k = n
      · simp [hk] at h
        subst h
        simp only [List.cons.sizeOf_spec, Prod.mk.sizeOf_spec]
        omega
      · simp [hk] at h
        have := ih n c h
        simp only [List.cons.sizeOf_spec]
        omega

namespace Command

variable {Ctx : Type}

/-- `Command::exec_with`: invoke the handler stored in the node with the
matches and the context.  The default dispatching handler
(`Command::dispatch_subcmd`) recursively executes the selected child, so
the recursion is written here; `dispatch_subcmd` below is the same body as
a standalone definition, and `exec_with_default` relates the two. -/
def exec_with : Command Ctx → Matches → Ctx → HRes Ctx
  | .mk _ h subs, m, ctx =>
    match h with
    | .custom f => f m ctx
    | .defaultDispatch =>
      match m.subcommand with
      | none => ⟨ctx, [], .ok⟩
      | some (n, sm) =>
        match hl : lookupAssoc subs n with
        | none => ⟨ctx, [], .err (.unknownSubcommand n)⟩
        | some child => exec_with child sm ctx
termination_by c _ _ => sizeOf c
decreasing_by
  have hlt := lookupAssoc_sizeOf subs n child hl
  simp only [Command.mk.sizeOf_spec]
  omega

/-- `Command::dispatch_subcmd`, the default handler: if a child was selected,
look it up by name and delegate with the sub-matches; an absent name is an
unknown-subcommand error (`bail!`); no selected child is a no-op success. -/
def dispatch_subcmd (self : Command Ctx) (m : Matches) (ctx : Ctx) : HRes Ctx :=
  match m.subcommand with
  | none => ⟨ctx, [], .ok⟩
  | some (n, sm) =>
    match lookupAssoc self.subcmdsOf n with
    | none => ⟨ctx, [], .err (.unknownSubcommand n)⟩
    | some child => exec_with child sm ctx

theorem exec_with_eq (self : Command Ctx) (m : Matches) (ctx : Ctx) :
    exec_with self m ctx =
      match self.handlerOf with
      | .custom f => f m ctx
      | .defaultDispatch => dispatch_subcmd self m ctx := by
  cases self with
  | mk c h subs =>
      rw [exec_with.eq_def]
      cases h with
      | custom f => rfl
      | defaultDispatch =>
          simp only [handlerOf_mk, dispatch_subcmd, subcmdsOf_mk]
          rcases hm : m.subcommand with _ | ⟨n, sm⟩
          · simp [hm]
          · simp only [hm]
            rcases hl₂ : lookupAssoc subs n with _ | child
            · simp [hl₂]
            · simp [hl₂]

/-- A node whose handler was not customized executes via `dispatch_subcmd`. -/
theorem exec_with_default {self : Command Ctx} {m : Matches} {ctx : Ctx}
    (h : self.handlerOf = .defaultDispatch) :
    exec_with self m ctx = dispatch_subcmd self m ctx := by
  rw [exec_with_eq, h]

/-- A node with a custom handler executes exactly that handler. -/
theorem exec_with_custom {self : Command Ctx} {m : Matches} {ctx : Ctx}
    {f : Matches → Ctx → HRes Ctx} (h : self.handlerOf = .custom f) :
    exec_with self m ctx = f m ctx := by
  rw [exec_with_eq, h]

@[simp] theorem exec_with_mk_custom (c : ClapCommand) (f : Matches → Ctx → HRes Ctx)
    (subs : List (String × Command Ctx)) (m : Matches) (ctx : Ctx) :
    (Command.mk c (.custom f) subs).exec_with m ctx = f m ctx :=
  exec_with_custom (handlerOf_mk c (.custom f) subs)

/-- `Command::exec_from`: parse the tokens against this node's clap spec via
the external argument-spec collaborator (`try_get_matches_from`, passed as
the abstract `parse` parameter); the `?` operator returns a parse failure
to the caller before any handler runs, otherwise `exec_with` is called. -/
def exec_from (parse : ClapCommand → List String → Except String Matches)
    (self : Command Ctx) (tokens : List String) (ctx : Ctx) : HRes Ctx :=
  match parse self.cmdOf tokens with
  | .error e => ⟨ctx, [], .err (.argParse e)⟩
  | .ok m => exec_with self m ctx

/-- `Command::exec`: `get_matches` parses the real process argument vector
inside the external collaborator (printing and exiting the process itself
on failure), so the model receives the successfully parsed matches and
calls `exec_with`. -/
def exec (self : Command Ctx) (m : Matches) (ctx : Ctx) : HRes Ctx :=
  exec_with self m ctx

end Command

/-- The `shell` positional of the completions subcommand:
`Arg::new("shell").required(true).value_parser([...])`. -/
def shellArg : ArgSpec :=
  ⟨"shell", true, ["bash", "zsh", "powershell", "fish", "elvish"]⟩

/-- The `about` text of the completions subcommand. -/
def completionsAbout : String :=
  "Generate completions for current shell. Add the output script to `.profile` or `.bashrc` etc. to make it effective."

/-- The body of the closure installed on the `completions` node: read the
`shell` positional (`get_one(..).unwrap()`, a panic when absent), parse it
as a shell identifier (`parse().unwrap()`, a panic when unrecognized), and
write the generated script for the captured snapshot to stdout, with the
snapshot name as binary name. -/
def completionsRun {Ctx : Type} (cmd_for_completions : ClapCommand)
    (m : Matches) (ctx : Ctx) : HRes Ctx :=
  match m.get_one "shell" with
  | none => ⟨ctx, [], .panic "called Option::unwrap on a None value"⟩
  | some s =>
    match parseShell s with
    | none => ⟨ctx, [], .panic "shell identifier parse failed"⟩
    | some sh =>
        ⟨ctx,
         [.script (generateScript sh cmd_for_completions cmd_for_completions.getName)],
         .ok⟩

namespace Command

variable {Ctx : Type}

/-- `Command::with_completions_subcmd`: build the `completions` node, capture
as snapshot the clap spec of `self` with the completions spec attached
(`self.cmd.clone().subcommand(completions_without_handler.cmd.clone())`),
install the generating closure, and register the node as a child. -/
def with_completions_subcmd (self : Command Ctx) : Command Ctx :=
  let completions_without_handler : Command Ctx :=
    ((Command.new "completions").about (some completionsAbout)).arg shellArg
  let cmd_for_completions :=
    self.cmdOf.addSubcommand completions_without_handler.cmdOf
  let completions :=
    completions_without_handler.handler
      (fun m ctx => completionsRun cmd_for_completions m ctx)
  self.subcommand completions

end Command

/-- One result of the blocking line read
(`rustyline` `readline`): a line, end of input, an interruption, or
another read error. -/
inductive ReadEvent where
  | line (s : String)
  | eof
  | interrupted
  | otherErr (msg : String)

/-- How a `repl` run ends: a panic unwinding out of it (failed `unwrap`),
or a normal return carrying the final context, the interactive history
entries added, and the stdout output. -/
inductive ReplResult (Ctx : Type) where
  | panicked (msg : String) (out : List OutItem)
  | finished (ctx : Ctx) (history : List String) (out : List OutItem)

/-- The interactive loop of `repl`, driven by the list of read events (the
complete input stream; an exhausted stream ends the session like end of
input).  A line is first appended to history, then tokenized by the
external `shell_words` collaborator (abstract `tokenize` parameter); a
tokenize failure prints `parse error` and continues; otherwise the root
command name is prepended and `exec_from` is run, any returned failure
being printed and the loop continuing with the context the handler left
behind. -/
def replLoop {Ctx : Type} (parse : ClapCommand → List String → Except String Matches)
    (tokenize : String → Except String (List String)) (cmd : Command Ctx) :
    List ReadEvent → Ctx → List String → List OutItem → ReplResult Ctx
  | [], ctx, hist, out => .finished ctx hist out
  | .line l :: rest, ctx, hist, out =>
      let hist' := hist ++ [l]
      match tokenize l with
      | .error e =>
          replLoop parse tokenize cmd rest ctx hist'
            (out ++ [.text ("parse error: `" ++ e ++ "`")])
      | .ok args =>
          let r := cmd.exec_from parse (cmd.get_name :: args) ctx
          match r.res with
          | .panic msg => .panicked msg (out ++ r.out)
          | .err e =>
              replLoop parse tokenize cmd rest r.ctx hist'
                (out ++ r.out ++ [.text (errMsg e)])
          | .ok => replLoop parse tokenize cmd rest r.ctx hist' (out ++ r.out)
  | .eof :: _, ctx, hist, out => .finished ctx hist out
  | .interrupted :: rest, ctx, hist, out =>
      replLoop parse tokenize cmd rest ctx hist
        (out ++ [.text "press CTRL-D to exit"])
  | .otherErr e :: _, ctx, hist, out =>
      .finished ctx hist (out ++ [.text ("readline error " ++ e)])

/-- `repl`: parse the process arguments (`get_matches`, performed by the
external collaborator, so the successfully parsed matches are taken as
input), execute the root once and `unwrap` the result (an error panics),
then enter the interactive loop exactly when no subcommand was resolved. -/
def repl {Ctx : Type} (parse : ClapCommand → List String → Except String Matches)
    (tokenize : String → Except String (List String)) (cmd : Command Ctx)
    (m : Matches) (events : List ReadEvent) (ctx : Ctx) : ReplResult Ctx :=
  let r := cmd.exec_with m ctx
  match r.res with
  | .panic msg => .panicked msg r.out
  | .err e =>
      .panicked ("called Result::unwrap on an Err value: " ++ errMsg e) r.out
  | .ok =>
    match m.subcommand with
    | some _ => .finished r.ctx [] r.out
    | none =>
      match replLoop parse tokenize cmd events r.ctx [] [] with
      | .panicked msg out₂ => .panicked msg (r.out ++ out₂)
      | .finished c h out₂ => .finished c h (r.out ++ out₂)

/-- Unfolding of `repl` when the startup dispatch panics: the panic unwinds
out of `repl`. -/
theorem repl_startup_panic {Ctx : Type}
    (parse : ClapCommand → List String → Except String Matches)
    (tokenize : String → Except String (List String)) (cmd : Command Ctx)
    (m : Matches) (events : List ReadEvent) (ctx : Ctx) (msg : String)
    (he : (cmd.exec_with m ctx).res = .panic msg) :
    repl parse tokenize cmd m events ctx =
      .panicked msg (cmd.exec_with m ctx).out := by
  simp [repl, he]

/-- Unfolding of `repl` when the startup dispatch returns an error: the
`unwrap` panics, so no error value reaches the caller and the loop is
never entered. -/
theorem repl_startup_err {Ctx : Type}
    (parse : ClapCommand → List String → Except String Matches)
    (tokenize : String → Except String (List String)) (cmd : Command Ctx)
    (m : Matches) (events : List ReadEvent) (ctx : Ctx) (e : Error)
    (he : (cmd.exec_with m ctx).res = .err e) :
    repl parse tokenize cmd m events ctx =
      .panicked ("called Result::unwrap on an Err value: " ++ errMsg e)
        (cmd.exec_with m ctx).out := by
  simp [repl, he]

/-- Unfolding of `repl` when a subcommand was resolved and the startup
dispatch succeeded: single dispatch, no loop. -/
theorem repl_oneshot {Ctx : Type}
    (parse : ClapCommand → List String → Except String Matches)
    (tokenize : String → Except String (List String)) (cmd : Command Ctx)
    (m : Matches) (events : List ReadEvent) (ctx : Ctx) (p : String × Matches)
    (hp : m.subcommand = some p) (hok : (cmd.exec_with m ctx).res = .ok) :
    repl parse tokenize cmd m events ctx =
      .finished (cmd.exec_with m ctx).ctx [] (cmd.exec_with m ctx).out := by
  simp [repl, hp, hok]

/-- Unfolding of `repl` when no subcommand was resolved and the startup
dispatch succeeded: the interactive loop runs on the input events. -/
theorem repl_enters_loop {Ctx : Type}
    (parse : ClapCommand → List String → Except String Matches)
    (tokenize : String → Except String (List String)) (cmd : Command Ctx)
    (m : Matches) (events : List ReadEvent) (ctx : Ctx)
    (hp : m.subcommand = none) (hok : (cmd.exec_with m ctx).res = .ok) :
    repl parse tokenize cmd m events ctx =
      (match replLoop parse tokenize cmd events (cmd.exec_with m ctx).ctx [] [] with
       | .panicked msg out₂ => .panicked msg ((cmd.exec_with m ctx).out ++ out₂)
       | .finished c h out₂ => .finished c h ((cmd.exec_with m ctx).out ++ out₂)) := by
  simp [repl, hp, hok]

/-- The guarantee the argument-spec collaborator gives for matches it
produced against a spec: every required argument is present, and an
argument with a value parser holds one of the allowed values. -/
def conformsTo (spec : ClapCommand) (m : Matches) : Bool :=
  spec.getArgs.all fun a =>
    !a.required ||
      (match m.get_one a.id with
       | some v => a.valueParser.isEmpty || a.valueParser.contains v
       | none => false)

/-! Association-list lemmas (the `HashMap` model). -/

@[simp] theorem lookupAssoc_nil {α : Type} (n : String) :
    lookupAssoc ([] : List (String × α)) n = none := rfl

@[simp] theorem lookupAssoc_cons {α : Type} (k n : String) (v : α)
    (rest : List (String × α)) :
    lookupAssoc ((k, v) :: rest) n = if k = n then some v else lookupAssoc rest n := rfl

/-- Lookup after insert: the inserted key maps to the new value, every other
key is unaffected (last-write-wins). -/
theorem lookupAssoc_insertAssoc {α : Type} (l : List (String × α)) (k n : String) (v : α) :
    lookupAssoc (insertAssoc l k v) n = if k = n then some v else lookupAssoc l n := by
  induction l with
  | nil => simp [insertAssoc]
  | cons p rest ih =>
      obtain ⟨k₀, v₀⟩ := p
      by_cases h₀ : k₀ = k
      · subst h₀
        by_cases hn : k₀ = n <;> simp [insertAssoc, hn]
      · by_cases hn : k₀ = n
        · subst hn
          have : k ≠ k₀ := fun h => h₀ h.symm
          simp [insertAssoc, h₀, this]
        · simp [insertAssoc, h₀, hn, ih]

/-! Projection lemmas for the `Command` builder operations. -/

namespace Command

variable {Ctx : Type}

@[simp] theorem new_eq (n : String) :
    (Command.new n : Command Ctx) = .mk (ClapCommand.new n) .defaultDispatch [] := rfl

@[simp] theorem get_name_mk (c : ClapCommand) (h : Handler Ctx)
    (s : List (String × Command Ctx)) :
    (Command.mk c h s).get_name = c.getName := rfl

@[simp] theorem subcommand_mk (self subcmd : Command Ctx) :
    self.subcommand subcmd =
      .mk (self.cmdOf.addSubcommand subcmd.cmdOf) self.handlerOf
        (insertAssoc self.subcmdsOf subcmd.get_name subcmd) := rfl

@[simp] theorem name_mk (self : Command Ctx) (n : String) :
    self.name n = .mk (self.cmdOf.setName n) self.handlerOf self.subcmdsOf := rfl

@[simp] theorem alias_mk (self : Command Ctx) (a : String) :
    self.«alias» a = .mk (self.cmdOf.addAlias a) self.handlerOf self.subcmdsOf := rfl

@[simp] theorem aliases_mk (self : Command Ctx) (as : List String) :
    self.aliases as = .mk (self.cmdOf.addAliases as) self.handlerOf self.subcmdsOf := rfl

@[simp] theorem version_mk (self : Command Ctx) (v : Option String) :
    self.version v = .mk (self.cmdOf.setVersion v) self.handlerOf self.subcmdsOf := rfl

@[simp] theorem author_mk (self : Command Ctx) (au : Option String) :
    self.author au = .mk (self.cmdOf.setAuthor au) self.handlerOf self.subcmdsOf := rfl

@[simp] theorem color_mk (self : Command Ctx) (c : ColorChoice) :
    self.color c = .mk (self.cmdOf.setColor c) self.handlerOf self.subcmdsOf := rfl

@[simp] theorem subcommand_required_else_help_mk (self : Command Ctx) (b : Bool) :
    self.subcommand_required_else_help b =
      .mk ((self.cmdOf.setSubcommandRequired b).setArgRequiredElseHelp b)
        self.handlerOf self.subcmdsOf := rfl

@[simp] theorem handler_mk (self : Command Ctx) (f : Matches → Ctx → HRes Ctx) :
    self.handler f = .mk self.cmdOf (.custom f) self.subcmdsOf := rfl

@[simp] theorem about_mk (self : Command Ctx) (ab : Option String) :
    self.about ab = .mk (self.cmdOf.setAbout ab) self.handlerOf self.subcmdsOf := rfl

@[simp] theorem arg_mk (self : Command Ctx) (a : ArgSpec) :
    self.arg a = .mk (self.cmdOf.addArg a) self.handlerOf self.subcmdsOf := rfl

@[simp] theorem get_name_subcommand (self subcmd : Command Ctx) :
    (self.subcommand subcmd).get_name = self.get_name := by
  simp [Command.get_name]

@[simp] theorem handlerOf_subcommand (self subcmd : Command Ctx) :
    (self.subcommand subcmd).handlerOf = self.handlerOf := by
  simp

@[simp] theorem subcmdsOf_subcommand (self subcmd : Command Ctx) :
    (self.subcommand subcmd).subcmdsOf =
      insertAssoc self.subcmdsOf subcmd.get_name subcmd := by
  simp

@[simp] theorem subcommands_nil (self : Command Ctx) :
    self.subcommands [] = self := rfl

@[simp] theorem subcommands_cons (self c : Command Ctx) (cs : List (Command Ctx)) :
    self.subcommands (c :: cs) = (self.subcommand c).subcommands cs := rfl

end Command

/-! One builder call, reified so that a whole chain of builder calls is a
list of operations (used to state the tree invariant over any sequence of
registrations). -/

inductive BuildOp (Ctx : Type) where
  | setName (n : String)
  | addAlias (a : String)
  | addAliases (as : List String)
  | setAbout (s : Option String)
  | setVersion (s : Option String)
  | setAuthor (s : Option String)
  | setColor (c : ColorChoice)
  | setSubcmdRequired (b : Bool)
  | addArg (a : ArgSpec)
  | setHandler (f : Matches → Ctx → HRes Ctx)
  | addSubcommand (c : Command Ctx)
  | addSubcommands (cs : List (Command Ctx))
  | withCompletions

/-- Apply one reified builder call to a node via the corresponding
`Command` operation. -/
def applyOp {Ctx : Type} (self : Command Ctx) : BuildOp Ctx → Command Ctx
  | .setName n => self.name n
  | .addAlias a => self.«alias» a
  | .addAliases as => self.aliases as
  | .setAbout s => self.about s
  | .setVersion s => self.version s
  | .setAuthor s => self.author s
  | .setColor c => self.color c
  | .setSubcmdRequired b => self.subcommand_required_else_help b
  | .addArg a => self.arg a
  | .setHandler f => self.handler f
  | .addSubcommand c => self.subcommand c
  | .addSubcommands cs => self.subcommands cs
  | .withCompletions => self.with_completions_subcmd

/-- A whole fluent chain of builder calls. -/
def applyOps {Ctx : Type} (self : Command Ctx) (ops : List (BuildOp Ctx)) : Command Ctx :=
  ops.foldl applyOp self

/-- The tree invariant: at every node, each child is registered under its own
name, sibling keys are distinct (so a name path reaches at most one node),
and the same holds in every subtree.  Acyclicity and single-parenthood hold
by construction: children are owned by their parent, which the model
renders as an inductive tree. -/
inductive TreeWF {Ctx : Type} : Command Ctx → Prop where
  | mk (c : ClapCommand) (h : Handler Ctx) (subs : List (String × Command Ctx))
      (hname : ∀ p ∈ subs, (p.2 : Command Ctx).get_name = p.1)
      (hnodup : (subs.map Prod.fst).Nodup)
      (hrec : ∀ p ∈ subs, TreeWF p.2) : TreeWF (.mk c h subs)

/-- The hypothesis a builder call carries: an attached child (itself produced
by builder calls) satisfies the tree invariant. -/
def opWF {Ctx : Type} : BuildOp Ctx → Prop
  | .addSubcommand c => TreeWF c
  | .addSubcommands cs => ∀ c ∈ cs, TreeWF c
  | _ => True

/-- Membership in an insert result: the inserted pair or an original pair. -/
theorem mem_insertAssoc {α : Type} (l : List (String × α)) (k : String) (v : α)
    (p : String × α) (hp : p ∈ insertAssoc l k v) : p = (k, v) ∨ p ∈ l := by
  induction l with
  | nil => simpa [insertAssoc] using hp
  | cons q rest ih =>
      obtain ⟨k₀, v₀⟩ := q
      by_cases h₀ : k₀ = k
      · simp [insertAssoc, h₀] at hp
        rcases hp with h | h
        · exact Or.inl (by simp [h])
        · exact Or.inr (by simp [h])
      · simp [insertAssoc, h₀] at hp
        rcases hp with h | h
        · exact Or.inr (by simp [h])
        · rcases ih h with h₁ | h₁
          · exact Or.inl h₁
          · exact Or.inr (by simp [h₁])

/-- Keys of an insert result: the inserted key or an original key. -/
theorem mem_keys_insertAssoc {α : Type} (l : List (String × α)) (k : String) (v : α)
    (n : String) (hn : n ∈ (insertAssoc l k v).map Prod.fst) :
    n = k ∨ n ∈ l.map Prod.fst := by
  simp only [List.mem_map] at hn
  obtain ⟨p, hp, hpn⟩ := hn
  rcases mem_insertAssoc l k v p hp with h | h
  · exact Or.inl (by rw [h] at hpn; simpa using hpn.symm)
  · exact Or.inr (List.mem_map.mpr ⟨p, h, hpn⟩)

/-- Insert keeps sibling keys distinct. -/
theorem nodup_keys_insertAssoc {α : Type} (l : List (String × α)) (k : String) (v : α)
    (h : (l.map Prod.fst).Nodup) : ((insertAssoc l k v).map Prod.fst).Nodup := by
  induction l with
  | nil => simp [insertAssoc]
  | cons q rest ih =>
      obtain ⟨k₀, v₀⟩ := q
      simp only [List.map_cons, List.nodup_cons] at h
      by_cases h₀ : k₀ = k
      · subst h₀
        have heq : insertAssoc ((k₀, v₀) :: rest) k₀ v = (k₀, v) :: rest := by
          simp [insertAssoc]
        rw [heq]
        simp only [List.map_cons, List.nodup_cons]
        exact ⟨h.1, h.2⟩
      · simp only [insertAssoc, if_neg h₀, List.map_cons, List.nodup_cons]
        refine ⟨fun hmem => ?_, ih h.2⟩
        rcases mem_keys_insertAssoc rest k v k₀ hmem with h₁ | h₁
        · exact h₀ h₁
        · exact h.1 h₁

/-! Preservation of the tree invariant by the builder operations. -/

/-- The invariant only concerns the child map, so changing the clap spec or
the handler of the node itself preserves it. -/
theorem TreeWF.retag {Ctx : Type} {c c' : ClapCommand} {h h' : Handler Ctx}
    {subs : List (String × Command Ctx)}
    (hwf : TreeWF (Command.mk c h subs)) : TreeWF (Command.mk c' h' subs) := by
  cases hwf with
  | mk _ _ _ hname hnodup hrec => exact .mk _ _ _ hname hnodup hrec

/-- A fresh node satisfies the tree invariant. -/
theorem TreeWF.new {Ctx : Type} (n : String) : TreeWF (Command.new n : Command Ctx) := by
  rw [Command.new_eq]
  exact .mk _ _ [] (by simp) (by simp) (by simp)

/-- Registering a well-formed child preserves the tree invariant. -/
theorem TreeWF.subcommand {Ctx : Type} {self sub : Command Ctx}
    (hs : TreeWF self) (hc : TreeWF sub) : TreeWF (self.subcommand sub) := by
  cases self with
  | mk c h subs =>
      cases hs with
      | mk _ _ _ hname hnodup hrec =>
          simp only [Command.subcommand_mk, Command.cmdOf_mk, Command.handlerOf_mk,
            Command.subcmdsOf_mk]
          refine .mk _ _ _ ?_ ?_ ?_
          · intro p hp
            rcases mem_insertAssoc _ _ _ p hp with h₁ | h₁
            · rw [h₁]
            · exact hname p h₁
          · exact nodup_keys_insertAssoc _ _ _ hnodup
          · intro p hp
            rcases mem_insertAssoc _ _ _ p hp with h₁ | h₁
            · rw [h₁]; exact hc
            · exact hrec p h₁

/-- Registering a list of well-formed children preserves the tree invariant. -/
theorem TreeWF.subcommands {Ctx : Type} {self : Command Ctx} {cs : List (Command Ctx)}
    (hs : TreeWF self) (hcs : ∀ c ∈ cs, TreeWF c) : TreeWF (self.subcommands cs) := by
  induction cs generalizing self with
  | nil => simpa using hs
  | cons c cs ih =>
      rw [Command.subcommands_cons]
      exact ih (hs.subcommand (hcs c (by simp))) fun c' hc' => hcs c' (by simp [hc'])

/-- Attaching the completions subcommand preserves the tree invariant: the
installed node has no children of its own and is registered under its own
name `completions`. -/
theorem TreeWF.with_completions {Ctx : Type} {self : Command Ctx}
    (hs : TreeWF self) : TreeWF self.with_completions_subcmd := by
  have hcomp :
      TreeWF (((Command.new "completions" : Command Ctx).about
        (some completionsAbout)).arg shellArg) := by
    simp only [Command.new_eq, Command.about_mk, Command.arg_mk, Command.cmdOf_mk,
      Command.handlerOf_mk, Command.subcmdsOf_mk]
    exact .mk _ _ [] (by simp) (by simp) (by simp)
  simp only [Command.with_completions_subcmd]
  refine hs.subcommand ?_
  cases hh : (((Command.new "completions" : Command Ctx).about
      (some completionsAbout)).arg shellArg) with
  | mk c h subs =>
      have := hh ▸ hcomp
      simp only [Command.handler_mk, Command.cmdOf_mk, Command.subcmdsOf_mk]
      exact this.retag

/-- One builder call preserves the tree invariant, given that any child it
attaches is itself well-formed. -/
theorem applyOp_wf {Ctx : Type} {self : Command Ctx} {op : BuildOp Ctx}
    (hs : TreeWF self) (hop : opWF op) : TreeWF (applyOp self op) := by
  cases self with
  | mk c h subs =>
      cases op
      case addSubcommand c' => exact hs.subcommand hop
      case addSubcommands cs => exact hs.subcommands hop
      case withCompletions => exact hs.with_completions
      all_goals
        simp only [applyOp, Command.name_mk, Command.alias_mk, Command.aliases_mk,
          Command.about_mk, Command.version_mk, Command.author_mk, Command.color_mk,
          Command.subcommand_required_else_help_mk, Command.arg_mk, Command.handler_mk,
          Command.cmdOf_mk, Command.handlerOf_mk, Command.subcmdsOf_mk]
      all_goals exact hs.retag

/-! Concrete fixtures used by the closed witness and counterexample
theorems: trivial instantiations of the external parse and tokenize
collaborators, and small concrete trees. -/

/-- A parse collaborator that rejects every token sequence. -/
def parseNone : ClapCommand → List String → Except String Matches :=
  fun _ _ => .error "unexpected argument"

/-- A parse collaborator that returns the fixed matches `m`. -/
def parseAs (m : Matches) : ClapCommand → List String → Except String Matches :=
  fun _ _ => .ok m

/-- A tokenizer that fails on every line. -/
def tokenizeFail : String → Except String (List String) :=
  fun _ => .error "missing closing quote"

/-- A tokenizer that yields the whole line as a single token. -/
def tokenizeOne : String → Except String (List String) :=
  fun s => .ok [s]

def demoKid : Command Unit := Command.new "kid"

def demoParent : Command Unit := (Command.new "app").subcommand demoKid

def demoFailRoot : Command Unit :=
  (Command.new "app").handler fun _ c => ⟨c, [], .err (.handlerFail "boom")⟩

def demoBoomChild : Command Unit :=
  (Command.new "boom").handler fun _ c => ⟨c, [], .err (.handlerFail "kaboom")⟩

def demoBoomTree : Command Unit := (Command.new "app").subcommand demoBoomChild

def demoWc : Command Unit := (Command.new "app").with_completions_subcmd

/-- The clap spec of the `completions` node, as `with_completions_subcmd`
builds it. -/
def completionsClapSpec : ClapCommand :=
  ((ClapCommand.new "completions").setAbout (some completionsAbout)).addArg shellArg

/-! Concrete evaluations of the fixtures, used to discharge witness and
counterexample hypotheses. -/

theorem demoFailRoot_exec :
    demoFailRoot.exec_with (.mk [] none) () = ⟨(), [], .err (.handlerFail "boom")⟩ := by
  simp [Command.exec_with_eq, demoFailRoot]

theorem demoBoomTree_exec :
    demoBoomTree.exec_with (.mk [] (some ("boom", .mk [] none))) () =
      ⟨(), [], .err (.handlerFail "kaboom")⟩ := by
  simp [Command.exec_with_eq, Command.dispatch_subcmd, demoBoomTree,
    demoBoomChild, insertAssoc, Matches.subcommand]

theorem demoParent_exec_kid :
    demoParent.exec_with (.mk [] (some ("kid", .mk [] none))) () = ⟨(), [], .ok⟩ := by
  simp [Command.exec_with_eq, Command.dispatch_subcmd, demoParent, demoKid,
    insertAssoc, Matches.subcommand]

theorem demoParent_exec_none :
    demoParent.exec_with (.mk [] none) () = ⟨(), [], .ok⟩ := by
  simp [Command.exec_with_eq, Command.dispatch_subcmd, demoParent,
    Matches.subcommand]

/-- The node that `with_completions_subcmd` installs under the key
`completions`: it carries the completions clap spec and the custom handler
that runs `completionsRun` on the captured snapshot — the clap spec of
`self` with the completions spec already attached. -/
theorem with_completions_child {Ctx : Type} (self : Command Ctx) :
    lookupAssoc self.with_completions_subcmd.subcmdsOf "completions" =
      some (Command.mk completionsClapSpec
        (.custom fun m ctx =>
          completionsRun (self.cmdOf.addSubcommand completionsClapSpec) m ctx) []) := by
  simp only [Command.with_completions_subcmd, Command.new_eq, Command.about_mk,
    Command.arg_mk, Command.handler_mk, Command.cmdOf_mk, Command.handlerOf_mk,
    Command.subcmdsOf_mk, Command.subcommand_mk, Command.get_name_mk,
    ClapCommand.new_def, ClapCommand.setAbout_mk, ClapCommand.addArg_mk,
    ClapCommand.getName_mk, completionsClapSpec, lookupAssoc_insertAssoc]
  simp

/-! # The claims -/

/-- C6 (confirmed): for every node whose handler was not customized and
every matches value, the default handler delegates to the selected child
when its name is in the child map, passing the sub-matches scoped to it;
fails with an unknown-subcommand error when the name is absent; and is a
no-op success when no child was selected. -/
theorem c6_default_handler_dispatch {Ctx : Type} (self : Command Ctx)
    (m : Matches) (ctx : Ctx) (hdef : self.handlerOf = .defaultDispatch) :
    (∀ n sm child, m.subcommand = some (n, sm) →
        lookupAssoc self.subcmdsOf n = some child →
        self.exec_with m ctx = child.exec_with sm ctx) ∧
    (∀ n sm, m.subcommand = some (n, sm) →
        lookupAssoc self.subcmdsOf n = none →
        self.exec_with m ctx = ⟨ctx, [], .err (.unknownSubcommand n)⟩) ∧
    (m.subcommand = none → self.exec_with m ctx = ⟨ctx, [], .ok⟩) := by
  refine ⟨?_, ?_, ?_⟩
  · intro n sm child hsub hlook
    rw [Command.exec_with_default hdef]
    simp [Command.dispatch_subcmd, hsub, hlook]
  · intro n sm hsub hlook
    rw [Command.exec_with_default hdef]
    simp [Command.dispatch_subcmd, hsub, hlook]
  · intro hsub
    rw [Command.exec_with_default hdef]
    simp [Command.dispatch_subcmd, hsub]

/-- Witness for C6 on a concrete two-node tree: delegation to the present
child `kid`, the unknown-subcommand error for the absent name `nope`, and
the no-op success with no selected child. -/
theorem c6_default_handler_dispatch_witness :
    (demoParent.exec_with (.mk [] (some ("kid", .mk [] none))) () =
      demoKid.exec_with (.mk [] none) ()) ∧
    (demoParent.exec_with (.mk [] (some ("nope", .mk [] none))) () =
      ⟨(), [], .err (.unknownSubcommand "nope")⟩) ∧
    (demoParent.exec_with (.mk [] none) () = ⟨(), [], .ok⟩) :=
  ⟨(c6_default_handler_dispatch demoParent (.mk [] (some ("kid", .mk [] none))) ()
      (by simp [demoParent, demoKid])).1 "kid" (.mk [] none) demoKid
      (by simp [Matches.subcommand])
      (by simp [demoParent, demoKid, insertAssoc]),
   (c6_default_handler_dispatch demoParent (.mk [] (some ("nope", .mk [] none))) ()
      (by simp [demoParent, demoKid])).2.1 "nope" (.mk [] none)
      (by simp [Matches.subcommand])
      (by simp [demoParent, demoKid, insertAssoc]),
   (c6_default_handler_dispatch demoParent (.mk [] none) ()
      (by simp [demoParent, demoKid])).2.2 (by simp [Matches.subcommand])⟩

/-- C7 (confirmed): for any sequence of child registrations under one
parent, looking up a name afterwards returns the most recently registered
node with that name (a colliding registration replaces the old entry);
names not registered by the sequence fall back to the prior map. -/
theorem c7_registration_last_write_wins {Ctx : Type} (parent : Command Ctx)
    (cs : List (Command Ctx)) (n : String) :
    lookupAssoc (parent.subcommands cs).subcmdsOf n =
      ((cs.reverse.find? fun c => c.get_name == n).or
        (lookupAssoc parent.subcmdsOf n)) := by
  induction cs generalizing parent with
  | nil => simp [Command.subcommands]
  | cons c cs ih =>
      rw [Command.subcommands_cons, ih]
      simp only [List.reverse_cons, List.find?_append]
      cases hf : cs.reverse.find? (fun c => c.get_name == n) with
      | some v => simp [hf]
      | none =>
          simp only [hf, Option.none_or]
          by_cases hn : c.get_name = n
          · simp [List.find?, hn, lookupAssoc_insertAssoc]
          · have hb : (c.get_name == n) = false := by
              simpa using hn
            simp [List.find?, hb, lookupAssoc_insertAssoc, hn]

/-- C8 (confirmed): `exec_from` parses the tokens against the node's
argument specification; a parse failure is returned to the caller with no
handler invoked and the context untouched, and a parse success runs
`exec_with` on the resulting matches. -/
theorem c8_exec_from_parse_then_dispatch {Ctx : Type}
    (parse : ClapCommand → List String → Except String Matches)
    (self : Command Ctx) (tokens : List String) (ctx : Ctx) :
    (∀ e, parse self.cmdOf tokens = .error e →
        self.exec_from parse tokens ctx = ⟨ctx, [], .err (.argParse e)⟩) ∧
    (∀ m, parse self.cmdOf tokens = .ok m →
        self.exec_from parse tokens ctx = self.exec_with m ctx) := by
  constructor
  · intro e he
    simp [Command.exec_from, he]
  · intro m hm
    simp [Command.exec_from, hm]

/-- Witness for C8: a failing parse is returned as an argument-parse error
with the context untouched, and a successful parse dispatches via
`exec_with`. -/
theorem c8_exec_from_parse_then_dispatch_witness :
    ((Command.new "app" : Command Unit).exec_from parseNone ["x"] () =
      ⟨(), [], .err (.argParse "unexpected argument")⟩) ∧
    ((Command.new "app" : Command Unit).exec_from (parseAs (.mk [] none)) ["x"] () =
      (Command.new "app" : Command Unit).exec_with (.mk [] none) ()) :=
  ⟨(c8_exec_from_parse_then_dispatch parseNone (Command.new "app") ["x"] ()).1
      "unexpected argument" rfl,
   (c8_exec_from_parse_then_dispatch (parseAs (.mk [] none))
      (Command.new "app") ["x"] ()).2 (.mk [] none) rfl⟩

/-- C2 (confirmed): a line whose processing fails — at tokenization, at
argument parsing, or in the handler — has its message printed and the loop
continues with the remaining input (the failure never escapes the loop and
never ends it); a tokenize or parse failure leaves the context unmodified
(a handler failure keeps whatever context the handler left behind). -/
theorem c2_interactive_failures_caught {Ctx : Type}
    (parse : ClapCommand → List String → Except String Matches)
    (tokenize : String → Except String (List String)) (cmd : Command Ctx)
    (s : String) (rest : List ReadEvent) (ctx : Ctx)
    (hist : List String) (out : List OutItem) :
    (∀ e, tokenize s = .error e →
        replLoop parse tokenize cmd (.line s :: rest) ctx hist out =
          replLoop parse tokenize cmd rest ctx (hist ++ [s])
            (out ++ [.text ("parse error: `" ++ e ++ "`")])) ∧
    (∀ args e, tokenize s = .ok args →
        parse cmd.cmdOf (cmd.get_name :: args) = .error e →
        replLoop parse tokenize cmd (.line s :: rest) ctx hist out =
          replLoop parse tokenize cmd rest ctx (hist ++ [s])
            (out ++ [.text (errMsg (.argParse e))])) ∧
    (∀ args ctx₂ o₂ e, tokenize s = .ok args →
        cmd.exec_from parse (cmd.get_name :: args) ctx = ⟨ctx₂, o₂, .err e⟩ →
        replLoop parse tokenize cmd (.line s :: rest) ctx hist out =
          replLoop parse tokenize cmd rest ctx₂ (hist ++ [s])
            (out ++ o₂ ++ [.text (errMsg e)])) := by
  refine ⟨?_, ?_, ?_⟩
  · intro e he
    simp [replLoop, he]
  · intro args e htok hparse
    simp [replLoop, htok, Command.exec_from, hparse, errMsg]
  · intro args ctx₂ o₂ e htok hexec
    simp [replLoop, htok, hexec]

/-- Witness for C2: a tokenize failure, an argument-parse failure and a
handler failure each print and continue the loop with the context as
described. -/
theorem c2_interactive_failures_caught_witness :
    (replLoop parseNone tokenizeFail (Command.new "app" : Command Unit)
        [.line "greet"] () [] [] =
      replLoop parseNone tokenizeFail (Command.new "app") [] () ["greet"]
        [.text ("parse error: `" ++ "missing closing quote" ++ "`")]) ∧
    (replLoop parseNone tokenizeOne (Command.new "app" : Command Unit)
        [.line "greet"] () [] [] =
      replLoop parseNone tokenizeOne (Command.new "app") [] () ["greet"]
        [.text (errMsg (.argParse "unexpected argument"))]) ∧
    (replLoop (parseAs (.mk [] none)) tokenizeOne demoFailRoot
        [.line "greet"] () [] [] =
      replLoop (parseAs (.mk [] none)) tokenizeOne demoFailRoot [] () ["greet"]
        [.text (errMsg (.handlerFail "boom"))]) :=
  ⟨by simpa using
      (c2_interactive_failures_caught parseNone tokenizeFail
        (Command.new "app") "greet" [] () [] []).1 "missing closing quote" rfl,
   by simpa using
      (c2_interactive_failures_caught parseNone tokenizeOne
        (Command.new "app") "greet" [] () [] []).2.1 ["greet"] "unexpected argument"
        rfl rfl,
   by simpa using
      (c2_interactive_failures_caught (parseAs (.mk [] none)) tokenizeOne
        demoFailRoot "greet" [] () [] []).2.2 ["greet"] () [] (.handlerFail "boom")
        rfl (by simp [Command.exec_from, parseAs, Command.exec_with_eq, demoFailRoot])⟩

/-- C3 counterexample: with a tokenizer that rejects the line `oops`, the
session still records `oops` in the interactive history, because the code
appends to history before tokenizing; this falsifies the claim that
history receives exactly the lines that tokenize successfully. -/
theorem c3_history_counterexample :
    replLoop parseNone tokenizeFail (Command.new "app" : Command Unit)
        [.line "oops"] () [] [] =
      .finished () ["oops"]
        [.text ("parse error: `" ++ "missing closing quote" ++ "`")] := by
  simp [replLoop, tokenizeFail]

/-- C3 (corrected): in the Processing step, every line read is appended
verbatim to interactive history first — before tokenization, so history
receives every processed line, not only those that tokenize successfully;
then a tokenize failure only prints the parse error and control returns to
awaiting a line, while a tokenize success prepends the root command's own
name as the implicit leading token and calls `exec_from`. -/
theorem c3_history_then_tokenize {Ctx : Type}
    (parse : ClapCommand → List String → Except String Matches)
    (tokenize : String → Except String (List String)) (cmd : Command Ctx)
    (s : String) (rest : List ReadEvent) (ctx : Ctx)
    (hist : List String) (out : List OutItem) :
    (∀ e, tokenize s = .error e →
        replLoop parse tokenize cmd (.line s :: rest) ctx hist out =
          replLoop parse tokenize cmd rest ctx (hist ++ [s])
            (out ++ [.text ("parse error: `" ++ e ++ "`")])) ∧
    (∀ args, tokenize s = .ok args →
        replLoop parse tokenize cmd (.line s :: rest) ctx hist out =
          (let r := cmd.exec_from parse (cmd.get_name :: args) ctx
           match r.res with
           | .panic msg => .panicked msg (out ++ r.out)
           | .err e =>
               replLoop parse tokenize cmd rest r.ctx (hist ++ [s])
                 (out ++ r.out ++ [.text (errMsg e)])
           | .ok => replLoop parse tokenize cmd rest r.ctx (hist ++ [s])
               (out ++ r.out))) := by
  constructor
  · intro e he
    simp [replLoop, he]
  · intro args htok
    simp [replLoop, htok]

/-- Witness for C3 as corrected: the tokenize-failure line and a
successfully tokenized line both land in history. -/
theorem c3_history_then_tokenize_witness :
    (replLoop parseNone tokenizeFail (Command.new "app" : Command Unit)
        [.line "oops"] () [] [] =
      replLoop parseNone tokenizeFail (Command.new "app") [] () ["oops"]
        [.text ("parse error: `" ++ "missing closing quote" ++ "`")]) ∧
    (replLoop (parseAs (.mk [] none)) tokenizeOne (Command.new "app" : Command Unit)
        [.line "greet"] () [] [] =
      replLoop (parseAs (.mk [] none)) tokenizeOne (Command.new "app") [] ()
        ["greet"] []) :=
  ⟨by simpa using
      (c3_history_then_tokenize parseNone tokenizeFail (Command.new "app")
        "oops" [] () [] []).1 "missing closing quote" rfl,
   by
    have h := (c3_history_then_tokenize (parseAs (.mk [] none)) tokenizeOne
      (Command.new "app" : Command Unit) "greet" [] () [] []).2 ["greet"] rfl
    simpa [Command.exec_from, parseAs, Command.exec_with_eq,
      Command.dispatch_subcmd, Matches.subcommand] using h⟩

/-- C4 counterexample: process arguments resolving the child `boom`, whose
handler returns an error.  The claim says the error from the startup
dispatch in `repl` propagates to the caller; the code instead unwraps the
result, so `repl` panics and no error value reaches the caller. -/
theorem c4_startup_unwrap_counterexample :
    repl parseNone tokenizeFail demoBoomTree
        (.mk [] (some ("boom", .mk [] none))) [] () =
      .panicked ("called Result::unwrap on an Err value: " ++
        errMsg (.handlerFail "kaboom")) [] := by
  rw [repl_startup_err parseNone tokenizeFail demoBoomTree
        (.mk [] (some ("boom", .mk [] none))) [] () (.handlerFail "kaboom")
        (by rw [demoBoomTree_exec]),
      demoBoomTree_exec]

/-- C4 (corrected): through the direct `exec` and `exec_from` entry points,
an argument-parse error or a handler error is returned to the caller (no
handler runs after a parse failure in `exec_from`; `exec` returns whatever
error the dispatched handler produced — its `get_matches` argument parsing
happens inside the external collaborator, which exits the process itself
on failure); the startup dispatch in `repl` however unwraps the result, so
an error there panics instead of being returned; and the interactive loop
never invokes any process-exit — on end of input it simply returns
normally. -/
theorem c4_error_propagation {Ctx : Type}
    (parse : ClapCommand → List String → Except String Matches)
    (tokenize : String → Except String (List String)) (cmd : Command Ctx)
    (tokens : List String) (m : Matches) (events : List ReadEvent) (ctx : Ctx) :
    (∀ e, parse cmd.cmdOf tokens = .error e →
        cmd.exec_from parse tokens ctx = ⟨ctx, [], .err (.argParse e)⟩) ∧
    (∀ m', parse cmd.cmdOf tokens = .ok m' →
        cmd.exec_from parse tokens ctx = cmd.exec_with m' ctx) ∧
    (∀ e, (cmd.exec_with m ctx).res = .err e →
        (cmd.exec m ctx).res = .err e) ∧
    (∀ e, (cmd.exec_with m ctx).res = .err e →
        repl parse tokenize cmd m events ctx =
          .panicked ("called Result::unwrap on an Err value: " ++ errMsg e)
            (cmd.exec_with m ctx).out) ∧
    (∀ rest hist out,
        replLoop parse tokenize cmd (.eof :: rest) ctx hist out =
          .finished ctx hist out) := by
  refine ⟨?_, ?_, ?_, ?_, ?_⟩
  · intro e he
    simp [Command.exec_from, he]
  · intro m' hm
    simp [Command.exec_from, hm]
  · intro e he
    simpa [Command.exec] using he
  · intro e he
    exact repl_startup_err parse tokenize cmd m events ctx e he
  · intro rest hist out
    simp [replLoop]

/-- Witness for C4 as corrected, on concrete trees: a returned parse error,
a returned handler error through `exec_from`, a returned handler error
through `exec`, the startup panic, and the normal return on end of
input. -/
theorem c4_error_propagation_witness :
    (demoBoomTree.exec_from parseNone ["x"] () =
      ⟨(), [], .err (.argParse "unexpected argument")⟩) ∧
    (demoBoomTree.exec_from (parseAs (.mk [] (some ("boom", .mk [] none)))) ["x"] () =
      demoBoomTree.exec_with (.mk [] (some ("boom", .mk [] none))) ()) ∧
    ((demoBoomTree.exec (.mk [] (some ("boom", .mk [] none))) ()).res =
      .err (.handlerFail "kaboom")) ∧
    (repl parseNone tokenizeFail demoBoomTree
        (.mk [] (some ("boom", .mk [] none))) [] () =
      .panicked ("called Result::unwrap on an Err value: " ++
          errMsg (.handlerFail "kaboom"))
        (demoBoomTree.exec_with (.mk [] (some ("boom", .mk [] none))) ()).out) ∧
    (replLoop parseNone tokenizeFail demoBoomTree [.eof] () [] [] =
      .finished () [] []) :=
  ⟨(c4_error_propagation parseNone tokenizeFail demoBoomTree ["x"]
      (.mk [] none) [] ()).1 "unexpected argument" rfl,
   (c4_error_propagation (parseAs (.mk [] (some ("boom", .mk [] none))))
      tokenizeFail demoBoomTree ["x"] (.mk [] none) [] ()).2.1
      (.mk [] (some ("boom", .mk [] none))) rfl,
   (c4_error_propagation parseNone tokenizeFail demoBoomTree ["x"]
      (.mk [] (some ("boom", .mk [] none))) [] ()).2.2.1 (.handlerFail "kaboom")
      (by rw [demoBoomTree_exec]),
   (c4_error_propagation parseNone tokenizeFail demoBoomTree ["x"]
      (.mk [] (some ("boom", .mk [] none))) [] ()).2.2.2.1 (.handlerFail "kaboom")
      (by rw [demoBoomTree_exec]),
   (c4_error_propagation parseNone tokenizeFail demoBoomTree ["x"]
      (.mk [] none) [] ()).2.2.2.2 [] [] []⟩

/-- C5 counterexample: process arguments resolving no subcommand, but with a
root handler that fails.  The claim says the interactive loop is then
always entered after the root dispatch; the code unwraps the startup
result, so `repl` panics and the loop is never entered — the pending line
event is never consumed. -/
theorem c5_no_subcommand_counterexample :
    repl (parseAs (.mk [] none)) tokenizeOne demoFailRoot (.mk [] none)
        [.line "greet"] () =
      .panicked ("called Result::unwrap on an Err value: " ++
        errMsg (.handlerFail "boom")) [] := by
  rw [repl_startup_err (parseAs (.mk [] none)) tokenizeOne demoFailRoot
        (.mk [] none) [.line "greet"] () (.handlerFail "boom")
        (by rw [demoFailRoot_exec]),
      demoFailRoot_exec]

/-- C5 (corrected): when the initial matches resolve a subcommand path, the
root is dispatched exactly once and the interactive loop is never entered
— the result is that of the single `exec_with` run, for every input-event
list; when no subcommand is resolved and the startup dispatch succeeds,
the interactive loop is entered on the events (if the startup dispatch
fails, `repl` panics via `unwrap` without entering the loop). -/
theorem c5_oneshot_or_loop {Ctx : Type}
    (parse : ClapCommand → List String → Except String Matches)
    (tokenize : String → Except String (List String)) (cmd : Command Ctx)
    (m : Matches) (events : List ReadEvent) (ctx : Ctx) :
    (∀ p, m.subcommand = some p →
        repl parse tokenize cmd m events ctx =
          (let r := cmd.exec_with m ctx
           match r.res with
           | .panic msg => .panicked msg r.out
           | .err e =>
               .panicked ("called Result::unwrap on an Err value: " ++ errMsg e)
                 r.out
           | .ok => .finished r.ctx [] r.out)) ∧
    (m.subcommand = none → (cmd.exec_with m ctx).res = .ok →
        repl parse tokenize cmd m events ctx =
          (match replLoop parse tokenize cmd events (cmd.exec_with m ctx).ctx [] [] with
           | .panicked msg out₂ =>
               .panicked msg ((cmd.exec_with m ctx).out ++ out₂)
           | .finished c h out₂ =>
               .finished c h ((cmd.exec_with m ctx).out ++ out₂))) := by
  constructor
  · intro p hp
    cases hr : (cmd.exec_with m ctx).res with
    | ok =>
        rw [repl_oneshot parse tokenize cmd m events ctx p hp hr]
        simp [hr]
    | err e =>
        rw [repl_startup_err parse tokenize cmd m events ctx e hr]
        simp [hr]
    | panic msg =>
        rw [repl_startup_panic parse tokenize cmd m events ctx msg hr]
        simp [hr]
  · intro hp hok
    exact repl_enters_loop parse tokenize cmd m events ctx hp hok

/-- Witness for C5 as corrected: a resolved subcommand dispatches once and
ignores the pending line event; no resolved subcommand with a successful
root dispatch enters the loop. -/
theorem c5_oneshot_or_loop_witness :
    (repl (parseAs (.mk [] none)) tokenizeOne demoParent
        (.mk [] (some ("kid", .mk [] none))) [.line "x"] () =
      .finished () [] []) ∧
    (repl (parseAs (.mk [] none)) tokenizeOne demoParent (.mk [] none) [] () =
      .finished () [] []) :=
  ⟨by
    have h := (c5_oneshot_or_loop (parseAs (.mk [] none)) tokenizeOne demoParent
      (.mk [] (some ("kid", .mk [] none))) [.line "x"] ()).1
      ("kid", .mk [] none) (by simp [Matches.subcommand])
    simpa [demoParent_exec_kid] using h,
   by
    have h := (c5_oneshot_or_loop (parseAs (.mk [] none)) tokenizeOne demoParent
      (.mk [] none) [] ()).2 (by simp [Matches.subcommand])
      (by rw [demoParent_exec_none])
    simpa [demoParent_exec_none, replLoop] using h⟩

/-- C1 counterexample: on the tree `app` with the completions subcommand
attached, invoking `completions bash` emits a script whose described
commands are exactly `[completions]` — the snapshot is the root spec
*with* the completions spec attached
(`self.cmd.clone().subcommand(completions.cmd)`), so the generated script
does describe the `completions` command itself, contrary to the claim.
The binary name `app` is the root command's own name, as claimed. -/
theorem c1_script_describes_completions_counterexample :
    demoWc.exec_with (.mk [] (some ("completions", .mk [("shell", "bash")] none))) () =
      ⟨(), [.script ⟨.bash, "app", ["completions"]⟩], .ok⟩ := by
  have hc : lookupAssoc demoWc.subcmdsOf "completions" =
      some (Command.mk completionsClapSpec
        (.custom fun m ctx =>
          completionsRun ((Command.new "app" : Command Unit).cmdOf.addSubcommand
            completionsClapSpec) m ctx) []) :=
    with_completions_child (Command.new "app")
  rw [Command.exec_with_default
    (by simp [demoWc, Command.with_completions_subcmd])]
  simp [Command.dispatch_subcmd, hc, completionsRun, parseShell,
    generateScript, completionsClapSpec]

/-- C1 (corrected): the handler installed by `with_completions_subcmd`
renders the script from a snapshot taken before the `completions` node was
attached to the live tree, but with the completions spec appended to the
snapshot itself; hence for every registered tree and parsed shell
identifier the generated script describes the original subcommands *plus*
the `completions` command (rather than omitting it), and the embedded
binary name equals the root command's own name. -/
theorem c1_completions_snapshot_script {Ctx : Type} (self : Command Ctx)
    (m : Matches) (ctx : Ctx) (s : String) (sh : Shell)
    (hs : m.get_one "shell" = some s) (hsh : parseShell s = some sh) :
    ∃ child,
      lookupAssoc self.with_completions_subcmd.subcmdsOf "completions" = some child ∧
      child.exec_with m ctx =
        ⟨ctx,
         [.script ⟨sh, self.get_name,
            self.cmdOf.getSubcommands.map ClapCommand.getName ++ ["completions"]⟩],
         .ok⟩ := by
  refine ⟨_, with_completions_child self, ?_⟩
  rw [Command.exec_with_mk_custom]
  simp [completionsRun, hs, hsh, generateScript, Command.get_name,
    completionsClapSpec]

/-- Witness for C1 as corrected, on the bare root `app` with shell `fish`. -/
theorem c1_completions_snapshot_script_witness :
    ∃ child,
      lookupAssoc (Command.new "app" : Command Unit).with_completions_subcmd.subcmdsOf
          "completions" = some child ∧
      child.exec_with (.mk [("shell", "fish")] none) () =
        ⟨(),
         [.script ⟨.fish, (Command.new "app" : Command Unit).get_name,
            (Command.new "app" : Command Unit).cmdOf.getSubcommands.map
              ClapCommand.getName ++ ["completions"]⟩],
         .ok⟩ :=
  c1_completions_snapshot_script (Command.new "app") (.mk [("shell", "fish")] none)
    () "fish" .fish (by simp) (by simp [parseShell])

/-- C10 (confirmed): the handler installed by `with_completions_subcmd`,
invoked with matches that conform to its own argument specification (the
required `shell` positional present with one of the five enumerated
values), neither panics nor fails: the `get_one` lookup and the shell
identifier parse both succeed and the handler returns success. -/
theorem c10_completions_handler_no_panic {Ctx : Type} (self : Command Ctx)
    (m : Matches) (ctx : Ctx)
    (hconf : conformsTo completionsClapSpec m = true) :
    ∃ child,
      lookupAssoc self.with_completions_subcmd.subcmdsOf "completions" = some child ∧
      (child.exec_with m ctx).res = .ok := by
  have hv : ∃ v, m.get_one "shell" = some v ∧
      (v = "bash" ∨ v = "zsh" ∨ v = "powershell" ∨ v = "fish" ∨ v = "elvish") := by
    cases hg : m.get_one "shell" with
    | none => simp [conformsTo, completionsClapSpec, shellArg, hg] at hconf
    | some v =>
        refine ⟨v, rfl, ?_⟩
        simpa [conformsTo, completionsClapSpec, shellArg, hg] using hconf
  obtain ⟨v, hgv, hfive⟩ := hv
  have hshell : ∃ sh, parseShell v = some sh := by
    rcases hfive with rfl | rfl | rfl | rfl | rfl
    · exact ⟨.bash, by simp [parseShell]⟩
    · exact ⟨.zsh, by simp [parseShell]⟩
    · exact ⟨.powershell, by simp [parseShell]⟩
    · exact ⟨.fish, by simp [parseShell]⟩
    · exact ⟨.elvish, by simp [parseShell]⟩
  obtain ⟨sh, hsh⟩ := hshell
  refine ⟨_, with_completions_child self, ?_⟩
  rw [Command.exec_with_mk_custom]
  simp [completionsRun, hgv, hsh]

/-- Witness for C10: conforming matches selecting `zsh` on the bare root. -/
theorem c10_completions_handler_no_panic_witness :
    ∃ child,
      lookupAssoc (Command.new "app" : Command Unit).with_completions_subcmd.subcmdsOf
          "completions" = some child ∧
      (child.exec_with (.mk [("shell", "zsh")] none) ()).res = .ok :=
  c10_completions_handler_no_panic (Command.new "app") (.mk [("shell", "zsh")] none)
    () (by simp [conformsTo, completionsClapSpec, shellArg])

/-- C9 (confirmed): any sequence of builder calls starting from
`Command::new` — renaming, aliases, metadata, argument specs, handler
installation, child registration and completions attachment, where every
attached child itself satisfies the invariant — yields a tree in which
every entry of every child map is keyed by the child's own name, sibling
keys are distinct (each name path reaches at most one node), and — by the
ownership structure the inductive tree models — the tree is acyclic with
every node reachable by exactly one path. -/
theorem c9_builder_sequences_preserve_invariant {Ctx : Type} (n : String)
    (ops : List (BuildOp Ctx)) (hops : ∀ op ∈ ops, opWF op) :
    TreeWF (applyOps (Command.new n) ops) := by
  suffices main : ∀ self : Command Ctx, TreeWF self →
      (∀ op ∈ ops, opWF op) → TreeWF (applyOps self ops) from
    main _ (TreeWF.new n) hops
  clear hops
  induction ops with
  | nil => intro self hs _; simpa [applyOps] using hs
  | cons op ops ih =>
      intro self hs hops
      rw [show applyOps self (op :: ops) = applyOps (applyOp self op) ops from rfl]
      exact ih _ (applyOp_wf hs (hops op (by simp)))
        fun o ho => hops o (by simp [ho])

/-- A concrete builder sequence covering registration, a colliding
re-registration, renaming, aliasing and completions attachment. -/
def demoOps : List (BuildOp Unit) :=
  [.addSubcommand (Command.new "kid"), .setName "tool", .addAlias "t",
   .addSubcommands [Command.new "kid", Command.new "other"], .withCompletions]

/-- Witness for C9: the invariant holds after the concrete sequence. -/
theorem c9_builder_sequences_preserve_invariant_witness :
    TreeWF (applyOps (Command.new "app" : Command Unit) demoOps) :=
  c9_builder_sequences_preserve_invariant "app" demoOps (by
    intro op hop
    simp only [demoOps, List.mem_cons, List.not_mem_nil, or_false] at hop
    rcases hop with rfl | rfl | rfl | rfl | rfl
    · exact TreeWF.new "kid"
    · trivial
    · trivial
    · intro c hc
      simp only [List.mem_cons, List.not_mem_nil, or_false] at hc
      rcases hc with rfl | rfl
      · exact TreeWF.new "kid"
      · exact TreeWF.new "other"
    · trivial)

end Cmdi
